import Mathlib

/-!
# Verification of the RAG engine in `backend/rag.py`

A shallow embedding of the retrieval-augmented-generation engine:
the character chunker `chunk_text`, the in-memory document pools,
the filtered similarity search `_retrieve_from_pool`, report ingestion
`ingest_report`, and the retrieval/merge/source part of `answer`.

Modelling conventions:
* Python `str` values that are sliced character-wise are modelled as
  `List Char`; metadata strings (ids, titles, filenames) as `String`.
* Python integers appearing as sizes (`max_chars`, `overlap`, `top_k`)
  are modelled as `Nat` (all call sites use positive literals).
* The floating-point entries of embedding vectors are modelled by an
  arbitrary linearly ordered commutative ring `α`; no property proved
  here depends on the numeric type, only on ordering and ring structure.
* The external capabilities (OpenAI embeddings, chat completion, and
  `uuid.uuid4`) are passed in as function parameters.
* The `while` loop of `chunk_text` is modelled with explicit fuel,
  returning `none` when the fuel runs out; termination statements are
  phrased as `isSome` facts about every sufficient fuel value.
-/

/-- The whitespace characters stripped by Python's `str.strip()`
(the ASCII subset, which is all that occurs in this code base). -/
def isSpaceChar (c : Char) : Bool :=
  c = ' ' || c = '\t' || c = '\n' || c = '\r' || c = Char.ofNat 11 || c = Char.ofNat 12

/-- Python `s.strip()`: drop whitespace from both ends. -/
def pyStrip (s : List Char) : List Char :=
  ((s.dropWhile isSpaceChar).reverse.dropWhile isSpaceChar).reverse

/-- Python `text.replace("\r\n", "\n")`: left-to-right, non-overlapping. -/
def replaceCRLF : List Char → List Char
  | [] => []
  | '\r' :: '\n' :: rest => '\n' :: replaceCRLF rest
  | c :: rest => c :: replaceCRLF rest

/-- Python `text[start:end]` for `0 ≤ start ≤ end` (the only shape used
by `chunk_text`). -/
def pySlice (s : List Char) (start stop : Nat) : List Char :=
  (s.drop start).take (stop - start)

/-- The `while start < length` loop of `chunk_text` (rag.py lines 25-31),
with fuel.  `chunks` is the accumulator list; each iteration appends
`chunk.strip()` and either breaks (when the window reached the end of the
text) or restarts at `end - overlap`. -/
def chunkLoop (maxChars overlap : Nat) (s : List Char) :
    Nat → Nat → List (List Char) → Option (List (List Char))
  | fuel, start, chunks =>
    if start < s.length then
      match fuel with
      | 0 => none
      | fuel' + 1 =>
        let e := min (start + maxChars) s.length
        let chunk := pySlice s start e
        let chunks' := chunks ++ [pyStrip chunk]
        if e = s.length then some chunks'
        else chunkLoop maxChars overlap s fuel' (e - overlap) chunks'
    else some chunks

/-- Python `chunk_text` (rag.py lines 19-32) with an explicit fuel bound on the
loop: CRLF-normalize, run the chunking loop from `start = 0`, then keep
only the chunks that are non-empty after stripping
(`[c for c in chunks if c]`). -/
def chunkTextFuel (fuel : Nat) (text : List Char) (maxChars overlap : Nat) :
    Option (List (List Char)) :=
  let t := replaceCRLF text
  (chunkLoop maxChars overlap t fuel 0 []).map (·.filter (fun c => !c.isEmpty))

/-- The full `chunk_text text max_chars overlap`, run with fuel `length + 1`,
which is sufficient whenever the loop terminates at all (each iteration
consumes one unit of fuel and, when `overlap < max_chars`, advances
`start` by at least one). -/
def chunk_text (text : List Char) (maxChars overlap : Nat) :
    Option (List (List Char)) :=
  chunkTextFuel ((replaceCRLF text).length + 1) text maxChars overlap

/-- Shorthand for `chunk_text` at the default parameters `max_chars=1200, overlap=200`
(the only way the rest of rag.py calls it), with the `none` case (which
cannot occur at these parameters, see `chunk_text_terminates_of_overlap_lt`)
defaulted. -/
def chunkTextDefault (text : List Char) : List (List Char) :=
  (chunk_text text 1200 200).getD []

/-- Ceiling division `ceil(a / b)` on naturals, the chunk-count formula of the spec. -/
def ceilDiv (a b : Nat) : Nat := (a + b - 1) / b

/-- The list of raw (untrimmed) windows produced by the `chunk_text`
loop from position `start`, as a well-founded recursion; only defined
for `overlap < maxChars`, which is what makes the loop advance. -/
def rawWindows (maxChars overlap : Nat) (hov : overlap < maxChars)
    (s : List Char) (start : Nat) : List (List Char) :=
  if h : start < s.length then
    let e := min (start + maxChars) s.length
    if e = s.length then [pySlice s start e]
    else pySlice s start e :: rawWindows maxChars overlap hov s (e - overlap)
  else []
termination_by s.length - start
decreasing_by
  have h1 : e = start + maxChars := by
    have := Nat.min_le_right (start + maxChars) s.length
    omega
  omega

/-! ## Data model: documents, pools, engine state (rag.py lines 35-46) -/

/-- A document dict.  Base-knowledge documents (`knowledge_base.py`) carry
only `id`, `title`, `text`; report documents additionally carry
`report_id` and `filename`.  A missing dict key is modelled by `none`. -/
structure Doc where
  id : String
  title : String
  text : List Char
  report_id : Option String
  filename : Option String
deriving DecidableEq

/-- A document together with its retrieval score
(`{**doc, "score": score}` in `_retrieve_from_pool`). -/
structure ScoredDoc (α : Type) where
  doc : Doc
  score : α
deriving DecidableEq

/-- The engine's mutable state: the two parallel-array pools of
`RAGEngine.__init__`. -/
structure EngineState (α : Type) where
  base_docs : List Doc
  base_embeddings : List (List α)
  report_docs : List Doc
  report_embeddings : List (List α)
deriving DecidableEq

/-- Python truthiness of an optional string value: `None` and `""` are
falsy, every other string is truthy. -/
def optTruthy : Option String → Bool
  | none => false
  | some s => !(s = "")

/-- Python `a or b` for an optional-string `a` and a string fallback. -/
def pyOrStr : Option String → String → String
  | some s, b => if s = "" then b else s
  | none, b => b

/-- Python `f"{x}"` applied to an optional string (`str(None) = "None"`). -/
def pyStrOpt : Option String → String
  | some s => s
  | none => "None"

/-- The static base catalog `KNOWLEDGE_CHUNKS` of `knowledge_base.py`. -/
def KNOWLEDGE_CHUNKS : List Doc :=
  [ ⟨"doc1_balcony_membranes", "Balcony Membrane Lifespan and Replacement",
      ("In coastal British Columbia, exposed balcony membranes typically have a service life of approximately 15 to 25 years, depending on UV exposure, drainage, and maintenance. Common deficiencies include membrane cracks, failures at door thresholds, and poor slope leading to ponding. When membranes are at or beyond their expected service life, or when leaks are observed below, replacement should be considered a high priority.").data,
      none, none⟩,
    ⟨"doc2_parkade_cracking", "Parkade Slab Cracking and Risk",
      ("Hairline shrinkage cracks in parkade slabs are common and often not structurally significant, provided there is no differential movement, spalling, or corrosion staining. Wider cracks, active water leakage, or rust staining at reinforcing steel indicate a higher risk of long-term deterioration. In such cases, further structural assessment and localized repair are recommended.").data,
      none, none⟩,
    ⟨"doc3_rainscreen_bc", "Rainscreen Requirements in British Columbia",
      ("Rainscreen wall assemblies became common practice in coastal BC in the mid to late 1990s, following widespread moisture-related building envelope failures. For many municipalities in the Lower Mainland, rainscreen requirements were adopted around 1996–1999. Older buildings without rainscreen cladding generally have a higher risk of concealed moisture damage, particularly at balconies, window interfaces, and roof-wall junctions.").data,
      none, none⟩,
    ⟨"doc4_maintenance_planning", "Maintenance Planning and Prioritization",
      ("For strata corporations, maintenance and renewal projects are typically prioritized based on safety, active leakage, risk of further deterioration, and impact on the building’s operation. Life-safety issues and active leaks are normally addressed first, followed by building envelope renewals, parkade repairs, and aesthetic upgrades. A depreciation report should provide a 30-year roadmap for major renewals.").data,
      none, none⟩ ]

/-- Python `RAGEngine.__init__`: seed the base pool from the fixed catalog by
embedding every base text in one batched call (`_embed_texts`, an
external capability passed as `embed_texts`); the report pool starts
empty. -/
def RAGEngine.init {α : Type} (embed_texts : List (List Char) → List (List α)) :
    EngineState α :=
  { base_docs := KNOWLEDGE_CHUNKS
    base_embeddings := embed_texts (KNOWLEDGE_CHUNKS.map (·.text))
    report_docs := []
    report_embeddings := [] }

/-! ## Retrieval (rag.py lines 103-120) -/

/-- The score `float(vec @ query_vec)`: the dot product of two vectors. -/
def vecDot {α : Type} [LinearOrderedCommRing α] (v w : List α) : α :=
  (List.zipWith (· * ·) v w).sum

/-- The sort key of `scored.sort(key=lambda d: d["score"], reverse=True)`:
`r a b` holds when `a`'s score is at least `b`'s, so that a list sorted
by `r` is descending by score. -/
def byScoreDesc {α : Type} [LinearOrderedCommRing α] (a b : ScoredDoc α) : Prop :=
  b.score ≤ a.score

instance {α : Type} [LinearOrderedCommRing α] : DecidableRel (@byScoreDesc α _) :=
  fun a b => inferInstanceAs (Decidable (b.score ≤ a.score))

instance {α : Type} [LinearOrderedCommRing α] : IsTotal (ScoredDoc α) byScoreDesc :=
  ⟨fun a b => le_total b.score a.score⟩

instance {α : Type} [LinearOrderedCommRing α] : IsTrans (ScoredDoc α) byScoreDesc :=
  ⟨fun _ _ _ hab hbc => le_trans hbc hab⟩

/-- Python `RAGEngine._retrieve_from_pool`: walk the parallel arrays in step
(`zip(docs, embeddings)`); when the filter is truthy, skip documents
whose `report_id` differs from it; score the rest by dot product; sort
descending by score (Python's stable sort is modelled by the stable
`List.insertionSort`; the spec leaves the tie order unspecified) and keep
the first `top_k`. -/
def retrieve_from_pool {α : Type} [LinearOrderedCommRing α]
    (query_vec : List α) (docs : List Doc) (embeddings : List (List α))
    (top_k : Nat) (filter_report_id : Option String) : List (ScoredDoc α) :=
  let scored := (docs.zip embeddings).filterMap (fun p =>
    if optTruthy filter_report_id && (p.1.report_id != filter_report_id) then none
    else some ⟨p.1, vecDot p.2 query_vec⟩)
  (List.insertionSort byScoreDesc scored).take top_k

/-! ## Report ingestion (rag.py lines 73-99) -/

/-- Python `RAGEngine.ingest_report`: draw a fresh `report_id` from the uuid
supply (`uuid 0`; the per-chunk document ids are `uuid 1`, `uuid 2`, …),
chunk the text at the default parameters, and if no chunks survive,
return immediately with the state untouched.  Otherwise embed all chunks
in one batched external call and append each `(chunk, vector)` pair to
the report pool (`zip(chunks, vectors)`). -/
def RAGEngine.ingest_report {α : Type} [LinearOrderedCommRing α]
    (embed_texts : List (List Char) → List (List α)) (uuid : Nat → String)
    (st : EngineState α) (filename : String) (text : List Char) :
    String × EngineState α :=
  let report_id := uuid 0
  let chunks := chunkTextDefault text
  if chunks.isEmpty then (report_id, st)
  else
    let vectors := embed_texts chunks
    let pairs := (chunks.zip vectors).enum
    let newDocs : List Doc := pairs.map (fun p =>
      ⟨uuid (p.1 + 1), "Report: " ++ filename, p.2.1, some report_id, some filename⟩)
    let newVecs := pairs.map (fun p => p.2.2)
    (report_id,
      { st with
        report_docs := st.report_docs ++ newDocs
        report_embeddings := st.report_embeddings ++ newVecs })

/-! ## Answering (rag.py lines 122-205) -/

/-- A chat message dict `{"role": ..., "content": ...}`. -/
structure Message where
  role : String
  content : List Char
deriving DecidableEq

/-- The merged retrieval sequence of `RAGEngine.answer` (lines 131-149):
the report pool is searched with `top_k=4` filtered to `report_id` only
when `report_id` is truthy; the base pool is always searched with
`top_k=2` and no filter; `merged = report_results + base_results`. -/
def answerMerged {α : Type} [LinearOrderedCommRing α]
    (st : EngineState α) (q_vec : List α) (report_id : Option String) :
    List (ScoredDoc α) :=
  (if optTruthy report_id then
    retrieve_from_pool q_vec st.report_docs st.report_embeddings 4 report_id
  else [])
  ++ retrieve_from_pool q_vec st.base_docs st.base_embeddings 2 none

/-- One context block: `f"[Source: {src}]\n{r['text']}"` with
`src = r.get("filename") or r.get("title") or "Unknown source"`. -/
def contextBlock {α : Type} (r : ScoredDoc α) : List Char :=
  "[Source: ".data
    ++ (pyOrStr r.doc.filename (pyOrStr (some r.doc.title) "Unknown source")).data
    ++ "]\n".data ++ r.doc.text

/-- One source-description string (lines 161-166): report-style when the
`filename` key is present, base-style otherwise. -/
def sourceLine {α : Type} (r : ScoredDoc α) : String :=
  if r.doc.filename.isSome then
    pyStrOpt r.doc.filename ++ " (report_id=" ++ pyStrOpt r.doc.report_id ++ ")"
  else
    r.doc.title ++ " (id=" ++ r.doc.id ++ ")"

/-- The fixed system persona (lines 168-179). -/
def sysPromptText : List Char :=
  ("You are a senior building science and strata engineering advisor. Your goal is to help PROJECT MANAGERS answer technical questions that they would normally ask an engineer or technician.\n\nUse ONLY the provided context from reports and knowledge base. Be conservative; if the question requires detailed structural analysis or legal advice, clearly say it must be escalated to an engineer.\n\nAlways:\n- Explain in plain language first.\n- Then add a short technical note if needed.\n- Never give structural sign-off or legal advice.").data

/-- The clause appended to the system prompt when a report is in scope
(lines 181-185). -/
def reportClauseText : List Char :=
  ("\n\nA specific report is associated with this question. Give priority to information coming from that report when answering.").data

/-- Python `RAGEngine.answer`: embed the question (external `_embed_query`,
passed as `embed_query`), retrieve and merge, assemble the context and
source descriptions, build the message sequence and hand it to the
external chat capability `chat`; returns `(answer_text, sources)`.
`history = []` models Python's falsy `None`/empty history, which
contributes no messages. -/
def RAGEngine.answer {α : Type} [LinearOrderedCommRing α]
    (embed_query : List Char → List α) (chat : List Message → List Char)
    (st : EngineState α) (question : List Char) (history : List Message)
    (report_id : Option String) : List Char × List String :=
  let q_vec := embed_query question
  let merged := answerMerged st q_vec report_id
  let context :=
    if merged.isEmpty then
      ("No relevant context found in the knowledge base.").data
    else
      List.intercalate ("\n\n---\n\n").data (merged.map contextBlock)
  let sources := merged.map sourceLine
  let system_prompt :=
    if optTruthy report_id then sysPromptText ++ reportClauseText
    else sysPromptText
  let user_prompt :=
    ("Question from project manager:\n").data ++ question
      ++ ("\n\nContext from past reports and knowledge base:\n").data ++ context
      ++ ("\n\nAnswer in a way that a project manager can forward parts of it to a strata council or property manager.").data
  let messages := [⟨"system", system_prompt⟩] ++ history ++ [⟨"user", user_prompt⟩]
  (chat messages, sources)

/-! ## Chunker lemmas -/

theorem ceilDiv_le_one {x b : Nat} (hb : 0 < b) (hx : x ≤ b) : ceilDiv x b ≤ 1 := by
  have : x + b - 1 < 2 * b := by omega
  have h2 : (x + b - 1) / b < 2 := by
    rw [Nat.div_lt_iff_lt_mul hb]
    omega
  unfold ceilDiv
  omega

theorem one_le_ceilDiv {x b : Nat} (hb : 0 < b) (hx : 1 ≤ x) : 1 ≤ ceilDiv x b := by
  unfold ceilDiv
  rw [Nat.le_div_iff_mul_le hb]
  omega

theorem ceilDiv_sub {a b : Nat} (hb : 0 < b) (hab : b ≤ a) :
    ceilDiv a b = ceilDiv (a - b) b + 1 := by
  unfold ceilDiv
  have h1 : a + b - 1 = (a - b + b - 1) + b := by omega
  rw [h1, Nat.add_div_right _ hb]

/-- Running the chunking loop with enough fuel yields exactly the raw
windows, each stripped, appended to the accumulator. -/
theorem chunkLoop_eq_rawWindows (mc ov : Nat) (hov : ov < mc) (s : List Char) :
    ∀ fuel start chunks, s.length - start ≤ fuel →
      chunkLoop mc ov s fuel start chunks
        = some (chunks ++ (rawWindows mc ov hov s start).map pyStrip) := by
  intro fuel
  induction fuel with
  | zero =>
    intro start chunks hfu
    have hs : ¬ start < s.length := by omega
    rw [chunkLoop, rawWindows]
    simp [hs]
  | succ n ih =>
    intro start chunks hfu
    by_cases hs : start < s.length
    · rw [chunkLoop, rawWindows]
      by_cases he : min (start + mc) s.length = s.length
      · simp [hs, he]
      · have hlt : start + mc < s.length := by
          rcases Nat.lt_or_ge (start + mc) s.length with h2 | h2
          · exact h2
          · exact absurd (Nat.min_eq_right h2) he
        have hemin : min (start + mc) s.length = start + mc :=
          Nat.min_eq_left (Nat.le_of_lt hlt)
        have hrec := ih (min (start + mc) s.length - ov) (chunks ++ [pyStrip (pySlice s start (min (start + mc) s.length))]) (by omega)
        simp only [hs, if_true, he, if_false, dif_pos hs]
        rw [hrec]
        simp
    · rw [chunkLoop, rawWindows]
      simp [hs]

/-- With overlap smaller than the window size, `chunk_text` computes the
stripped raw windows with the empty ones dropped. -/
theorem chunk_text_eq_rawWindows {mc ov : Nat} (hov : ov < mc) (text : List Char) :
    chunk_text text mc ov
      = some (((rawWindows mc ov hov (replaceCRLF text) 0).map pyStrip).filter
          (fun c => !c.isEmpty)) := by
  show (chunkLoop mc ov (replaceCRLF text) ((replaceCRLF text).length + 1) 0 []).map
      (fun x => x.filter (fun c => !c.isEmpty))
    = some (((rawWindows mc ov hov (replaceCRLF text) 0).map pyStrip).filter
        (fun c => !c.isEmpty))
  rw [chunkLoop_eq_rawWindows mc ov hov (replaceCRLF text) _ 0 [] (by omega)]
  simp

/-- Claim C2, amended. The chunker terminates whenever `overlap <
max_chars` — in particular at the default parameters `1200/200` — and
once a window reaches the end of the text the loop stops, so any fuel
beyond the text length gives the same (terminating) run.  (As stated
over *all* parameter values the claim is false: see
`chunk_text_diverges_when_overlap_eq_max`.) -/
theorem chunk_text_terminates_of_overlap_lt (text : List Char) (mc ov : Nat)
    (hov : ov < mc) :
    (chunk_text text mc ov).isSome = true
      ∧ ∀ fuel, (replaceCRLF text).length ≤ fuel →
          chunkTextFuel fuel text mc ov = chunk_text text mc ov := by
  constructor
  · rw [chunk_text_eq_rawWindows hov]
    rfl
  · intro fuel hfu
    have h1 : chunkTextFuel fuel text mc ov
        = (chunkLoop mc ov (replaceCRLF text) fuel 0 []).map
            (fun x => x.filter (fun c => !c.isEmpty)) := rfl
    have h2 : chunk_text text mc ov
        = (chunkLoop mc ov (replaceCRLF text) ((replaceCRLF text).length + 1) 0 []).map
            (fun x => x.filter (fun c => !c.isEmpty)) := rfl
    rw [h1, h2, chunkLoop_eq_rawWindows mc ov hov (replaceCRLF text) fuel 0 [] (by omega),
      chunkLoop_eq_rawWindows mc ov hov (replaceCRLF text) _ 0 [] (by omega)]

/-- Witness for `chunk_text_terminates_of_overlap_lt` at concrete input. -/
theorem chunk_text_terminates_witness :
    ((1 : Nat) < 3)
      ∧ ((chunk_text ['a', 'b', 'c', 'd', 'e'] 3 1).isSome = true
          ∧ ∀ fuel, (replaceCRLF ['a', 'b', 'c', 'd', 'e']).length ≤ fuel →
              chunkTextFuel fuel ['a', 'b', 'c', 'd', 'e'] 3 1
                = chunk_text ['a', 'b', 'c', 'd', 'e'] 3 1) :=
  ⟨by decide, chunk_text_terminates_of_overlap_lt ['a', 'b', 'c', 'd', 'e'] 3 1 (by decide)⟩

/-- On the text `"ab"` with `max_chars = overlap = 1`, the loop state
repeats (`start` returns to `0`), so no amount of fuel finishes it. -/
theorem chunkLoop_ab_one_one_eq_none :
    ∀ fuel chunks, chunkLoop 1 1 ['a', 'b'] fuel 0 chunks = none := by
  intro fuel
  induction fuel with
  | zero => intro chunks; rw [chunkLoop.eq_def]; simp
  | succ n ih =>
    intro chunks
    rw [chunkLoop.eq_def]
    simpa using ih (chunks ++ [pyStrip (pySlice ['a', 'b'] 0 1)])

/-- Claim C2, counterexample. With `max_chars = 1, overlap = 1` and the
two-character text `"ab"`, `chunk_text` does not terminate: the loop
never produces a result no matter how much fuel it is given, refuting
"for every max_chars and overlap values, chunk_text terminates". -/
theorem chunk_text_diverges_when_overlap_eq_max :
    ¬ ∃ fuel, (chunkTextFuel fuel ['a', 'b'] 1 1).isSome = true := by
  rintro ⟨fuel, hfu⟩
  have h : chunkTextFuel fuel ['a', 'b'] 1 1
      = (chunkLoop 1 1 (replaceCRLF ['a', 'b']) fuel 0 []).map
          (fun x => x.filter (fun c => !c.isEmpty)) := rfl
  have hr : replaceCRLF ['a', 'b'] = ['a', 'b'] := rfl
  rw [h, hr, chunkLoop_ab_one_one_eq_none fuel []] at hfu
  simp at hfu

/-- Claim C5, amended. For text whose CRLF-normalized form is shorter
than `max_chars`, `chunk_text` returns the single stripped chunk when
that strip is non-empty, and no chunk at all when the text strips to
empty (e.g. the empty or whitespace-only string). -/
theorem chunk_text_short_text (text : List Char) (mc ov : Nat)
    (hlen : (replaceCRLF text).length < mc) :
    chunk_text text mc ov
      = some (if pyStrip (replaceCRLF text) = [] then []
          else [pyStrip (replaceCRLF text)]) := by
  have h0 : chunk_text text mc ov
      = (chunkLoop mc ov (replaceCRLF text) ((replaceCRLF text).length + 1) 0 []).map
          (fun x => x.filter (fun c => !c.isEmpty)) := rfl
  rw [h0]
  rcases heq : replaceCRLF text with _ | ⟨c, rest⟩
  · rw [chunkLoop.eq_def]
    simp [pyStrip]
  · rw [heq] at hlen
    rw [chunkLoop.eq_def]
    have hpos : 0 < (c :: rest).length := by simp
    have hmin : min (0 + mc) (c :: rest).length = (c :: rest).length := by
      omega
    simp only [hpos, if_true, hmin]
    have hsl : pySlice (c :: rest) 0 (c :: rest).length = c :: rest := by
      unfold pySlice
      simp
    rw [hsl]
    rcases hstrip : pyStrip (c :: rest) with _ | ⟨d, ds⟩
    · simp
    · simp

/-- Witness for `chunk_text_short_text` at a concrete input. -/
theorem chunk_text_short_text_witness :
    ((replaceCRLF ['a', 'b']).length < 1200)
      ∧ chunk_text ['a', 'b'] 1200 200
          = some (if pyStrip (replaceCRLF ['a', 'b']) = [] then []
              else [pyStrip (replaceCRLF ['a', 'b'])]) :=
  ⟨by decide, chunk_text_short_text ['a', 'b'] 1200 200 (by decide)⟩

/-- Claim C5, counterexample. The single-space text is shorter than the
default `max_chars = 1200`, yet `chunk_text` returns no chunk at all
rather than one chunk equal to the trimmed input. -/
theorem chunk_text_whitespace_gives_no_chunk :
    chunk_text [' '] 1200 200 = some []
      ∧ chunk_text [' '] 1200 200 ≠ some [pyStrip (replaceCRLF [' '])] := by
  constructor
  · decide
  · decide

theorem dropWhile_eq_self_of_false {p : Char → Bool} {l : List Char}
    (h : ∀ c ∈ l, p c = false) : l.dropWhile p = l := by
  cases l with
  | nil => rfl
  | cons a l => simp [List.dropWhile_cons, h a (by simp)]

/-- Stripping a string with no whitespace characters is the identity. -/
theorem pyStrip_eq_self {w : List Char}
    (h : ∀ c ∈ w, isSpaceChar c = false) : pyStrip w = w := by
  unfold pyStrip
  rw [dropWhile_eq_self_of_false h,
    dropWhile_eq_self_of_false (fun c hc => h c (by simpa using hc))]
  simp

theorem replaceCRLF_cons_of_ne {c : Char} (rest : List Char) (hc : c ≠ '\r') :
    replaceCRLF (c :: rest) = c :: replaceCRLF rest := by
  rw [replaceCRLF.eq_def]
  split
  · simp_all
  · simp_all
  · simp_all

/-- CRLF normalization is the identity on CR-free text. -/
theorem replaceCRLF_eq_self (s : List Char) (h : ∀ c ∈ s, c ≠ '\r') :
    replaceCRLF s = s := by
  induction s with
  | nil => rfl
  | cons c rest ih =>
    rw [replaceCRLF_cons_of_ne rest (h c (by simp)),
      ih (fun d hd => h d (by simp [hd]))]

theorem rawWindows_stop {mc ov : Nat} (hov : ov < mc) (s : List Char)
    {start : Nat} (hs : ¬ start < s.length) :
    rawWindows mc ov hov s start = [] := by
  rw [rawWindows]
  simp [hs]

theorem rawWindows_last {mc ov : Nat} (hov : ov < mc) (s : List Char)
    {start : Nat} (hs : start < s.length) (hle : s.length ≤ start + mc) :
    rawWindows mc ov hov s start = [pySlice s start s.length] := by
  rw [rawWindows]
  simp [hs, Nat.min_eq_right hle]

theorem rawWindows_step {mc ov : Nat} (hov : ov < mc) (s : List Char)
    {start : Nat} (hlt : start + mc < s.length) :
    rawWindows mc ov hov s start
      = pySlice s start (start + mc) :: rawWindows mc ov hov s (start + mc - ov) := by
  rw [rawWindows]
  have hs : start < s.length := by omega
  have hmin : min (start + mc) s.length = start + mc := Nat.min_eq_left (by omega)
  have hne : ¬ (start + mc = s.length) := by omega
  simp [hs, hmin, hne]

/-- The number of raw windows from position `start`:
`max 1 ⌈(length - start - overlap) / (max_chars - overlap)⌉`. -/
theorem rawWindows_length {mc ov : Nat} (hov : ov < mc) (s : List Char)
    (start : Nat) (hs : start < s.length) :
    (rawWindows mc ov hov s start).length
      = max 1 (ceilDiv (s.length - start - ov) (mc - ov)) := by
  by_cases hle : s.length ≤ start + mc
  · rw [rawWindows_last hov s hs hle]
    have h1 : ceilDiv (s.length - start - ov) (mc - ov) ≤ 1 :=
      ceilDiv_le_one (by omega) (by omega)
    simp
    omega
  · have hlt : start + mc < s.length := by omega
    rw [rawWindows_step hov s hlt]
    have ih := rawWindows_length hov s (start + mc - ov) (by omega)
    have harg : s.length - (start + mc - ov) - ov
        = (s.length - start - ov) - (mc - ov) := by omega
    have hgt : (mc - ov) < (s.length - start - ov) := by omega
    have h1 : 1 ≤ ceilDiv ((s.length - start - ov) - (mc - ov)) (mc - ov) :=
      one_le_ceilDiv (by omega) (by omega)
    have h2 : 1 ≤ ceilDiv (s.length - start - ov) (mc - ov) :=
      one_le_ceilDiv (by omega) (by omega)
    have h3 : ceilDiv (s.length - start - ov) (mc - ov)
        = ceilDiv ((s.length - start - ov) - (mc - ov)) (mc - ov) + 1 :=
      ceilDiv_sub (by omega) (by omega)
    simp only [List.length_cons, ih, harg]
    omega
termination_by s.length - start
decreasing_by omega

/-- Every raw window is non-empty. -/
theorem rawWindows_ne_nil {mc ov : Nat} (hov : ov < mc) (s : List Char)
    (start : Nat) : ∀ w ∈ rawWindows mc ov hov s start, w ≠ [] := by
  intro w hw
  by_cases hs : start < s.length
  · by_cases hle : s.length ≤ start + mc
    · rw [rawWindows_last hov s hs hle] at hw
      simp at hw
      subst hw
      have : (pySlice s start s.length).length = s.length - start := by
        unfold pySlice
        simp
      intro hnil
      rw [hnil] at this
      simp at this
      omega
    · have hlt : start + mc < s.length := by omega
      rw [rawWindows_step hov s hlt] at hw
      rcases List.mem_cons.mp hw with h | h
      · subst h
        have : (pySlice s start (start + mc)).length = mc := by
          unfold pySlice
          simp
          omega
        intro hnil
        rw [hnil] at this
        simp at this
        omega
      · exact rawWindows_ne_nil hov s (start + mc - ov) w h
  · rw [rawWindows_stop hov s hs] at hw
    simp at hw
termination_by s.length - start
decreasing_by omega

/-- Every character of a raw window is a character of the text. -/
theorem rawWindows_chars {mc ov : Nat} (hov : ov < mc) (s : List Char)
    (start : Nat) : ∀ w ∈ rawWindows mc ov hov s start, ∀ c ∈ w, c ∈ s := by
  intro w hw c hc
  by_cases hs : start < s.length
  · by_cases hle : s.length ≤ start + mc
    · rw [rawWindows_last hov s hs hle] at hw
      simp at hw
      subst hw
      exact List.mem_of_mem_drop (List.mem_of_mem_take hc)
    · have hlt : start + mc < s.length := by omega
      rw [rawWindows_step hov s hlt] at hw
      rcases List.mem_cons.mp hw with h | h
      · subst h
        exact List.mem_of_mem_drop (List.mem_of_mem_take hc)
      · exact rawWindows_chars hov s (start + mc - ov) w h c hc
  · rw [rawWindows_stop hov s hs] at hw
    simp at hw
termination_by s.length - start
decreasing_by omega

/-- Consecutive raw windows share exactly `overlap` characters: every
non-final window is `max_chars` long, and the first `overlap` characters
of each window equal the last `overlap` characters of its predecessor. -/
theorem rawWindows_overlap {mc ov : Nat} (hov : ov < mc) (s : List Char)
    (start : Nat) :
    ∀ i, i + 1 < (rawWindows mc ov hov s start).length →
      ∃ w1 w2, (rawWindows mc ov hov s start)[i]? = some w1
        ∧ (rawWindows mc ov hov s start)[i + 1]? = some w2
        ∧ w1.length = mc ∧ (w2.take ov).length = ov
        ∧ w2.take ov = w1.drop (mc - ov) := by
  intro i hi
  by_cases hs : start < s.length
  · by_cases hle : s.length ≤ start + mc
    · rw [rawWindows_last hov s hs hle] at hi
      simp at hi
    · have hlt : start + mc < s.length := by omega
      rw [rawWindows_step hov s hlt] at hi ⊢
      cases i with
      | zero =>
        refine ⟨pySlice s start (start + mc), ?_⟩
        have hs2 : start + mc - ov < s.length := by omega
        have hhead : ∃ tl, rawWindows mc ov hov s (start + mc - ov)
            = pySlice s (start + mc - ov)
                (min (start + mc - ov + mc) s.length) :: tl := by
          by_cases h2 : s.length ≤ start + mc - ov + mc
          · refine ⟨[], ?_⟩
            rw [rawWindows_last hov s hs2 h2, Nat.min_eq_right h2]
          · exact ⟨rawWindows mc ov hov s (start + mc - ov + mc - ov),
              by rw [rawWindows_step hov s (by omega), Nat.min_eq_left (by omega)]⟩
        obtain ⟨tl, htl⟩ := hhead
        refine ⟨pySlice s (start + mc - ov) (min (start + mc - ov + mc) s.length),
          by simp, by simp [htl], ?_, ?_, ?_⟩
        · unfold pySlice
          simp
          omega
        · unfold pySlice
          rw [List.take_take, List.length_take, List.length_drop]
          omega
        · unfold pySlice
          rw [List.take_take, List.drop_take, List.drop_drop]
          have e1 : min ov (min (start + mc - ov + mc) s.length - (start + mc - ov))
              = ov := by omega
          have e2 : start + mc - start - (mc - ov) = ov := by omega
          have e3 : start + (mc - ov) = start + mc - ov := by omega
          rw [e1, e2, e3]
      | succ j =>
        have hj : j + 1 < (rawWindows mc ov hov s (start + mc - ov)).length := by
          simpa using hi
        obtain ⟨w1, w2, h1, h2, h3, h4, h5⟩ :=
          rawWindows_overlap hov s (start + mc - ov) j hj
        exact ⟨w1, w2, by simpa using h1, by simpa using h2, h3, h4, h5⟩
  · rw [rawWindows_stop hov s hs] at hi
    simp at hi
termination_by s.length - start
decreasing_by omega

/-- Claim C4, amended. For text without whitespace characters (so that
trimming neither empties nor alters any chunk) of length `L > max_chars`
and `overlap < max_chars`, `chunk_text` terminates with exactly
`ceil((L - overlap) / (max_chars - overlap))` chunks, and every pair of
consecutive chunks shares exactly `overlap` characters (each non-final
chunk is `max_chars` long and the first `overlap` characters of chunk
`i+1` equal the last `overlap` characters of chunk `i`).  (The count
formula is false for general text because trimming may drop chunks
entirely: see `chunk_count_fails_on_whitespace`.) -/
theorem chunk_count_and_overlap (mc ov : Nat) (s : List Char)
    (hov : ov < mc) (hw : ∀ c ∈ s, isSpaceChar c = false)
    (hL : mc < s.length) :
    ∃ cs, chunk_text s mc ov = some cs
      ∧ cs.length = ceilDiv (s.length - ov) (mc - ov)
      ∧ ∀ i, i + 1 < cs.length →
          ∃ w1 w2, cs[i]? = some w1 ∧ cs[i + 1]? = some w2
            ∧ w1.length = mc ∧ (w2.take ov).length = ov
            ∧ w2.take ov = w1.drop (mc - ov) := by
  have hnocr : ∀ c ∈ s, c ≠ '\r' := by
    intro c hc heq
    have := hw c hc
    rw [heq] at this
    simp [isSpaceChar] at this
  have hrepl : replaceCRLF s = s := replaceCRLF_eq_self s hnocr
  have hmap : (rawWindows mc ov hov s 0).map pyStrip = rawWindows mc ov hov s 0 := by
    have : ∀ w ∈ rawWindows mc ov hov s 0, pyStrip w = id w := by
      intro w hwm
      exact pyStrip_eq_self (fun c hc => hw c (rawWindows_chars hov s 0 w hwm c hc))
    rw [List.map_congr_left this, List.map_id]
  have hfil : (rawWindows mc ov hov s 0).filter (fun c => !c.isEmpty)
      = rawWindows mc ov hov s 0 := by
    rw [List.filter_eq_self]
    intro w hwm
    have := rawWindows_ne_nil hov s 0 w hwm
    simpa [List.isEmpty_iff] using this
  refine ⟨rawWindows mc ov hov s 0, ?_, ?_, ?_⟩
  · have := chunk_text_eq_rawWindows hov s
    rw [this]
    congr 1
    conv in rawWindows mc ov hov (replaceCRLF s) 0 => rw [hrepl]
    rw [hmap, hfil]
  · rw [rawWindows_length hov s 0 (by omega)]
    simp only [Nat.sub_zero]
    have h1 : 1 ≤ ceilDiv (s.length - ov) (mc - ov) :=
      one_le_ceilDiv (by omega) (by omega)
    omega
  · exact rawWindows_overlap hov s 0

/-- Witness for `chunk_count_and_overlap` at the concrete input
`"abcde"`, `max_chars = 3`, `overlap = 1`. -/
theorem chunk_count_and_overlap_witness :
    ((1 : Nat) < 3
        ∧ (∀ c ∈ ['a', 'b', 'c', 'd', 'e'], isSpaceChar c = false)
        ∧ 3 < (['a', 'b', 'c', 'd', 'e'] : List Char).length)
      ∧ (∃ cs, chunk_text ['a', 'b', 'c', 'd', 'e'] 3 1 = some cs
          ∧ cs.length = ceilDiv ((['a', 'b', 'c', 'd', 'e'] : List Char).length - 1) (3 - 1)
          ∧ ∀ i, i + 1 < cs.length →
              ∃ w1 w2, cs[i]? = some w1 ∧ cs[i + 1]? = some w2
                ∧ w1.length = 3 ∧ (w2.take 1).length = 1
                ∧ w2.take 1 = w1.drop (3 - 1)) :=
  ⟨⟨by decide, by decide, by decide⟩,
    chunk_count_and_overlap 3 1 ['a', 'b', 'c', 'd', 'e'] (by decide) (by decide) (by decide)⟩

/-- Claim C4, counterexample. A whitespace-only text of length `3 > 2 =
max_chars` (with `overlap = 1`) produces zero chunks after trimming,
while the formula `ceil((L - overlap) / (max_chars - overlap))` predicts
two, so the chunk-count claim fails for general text. -/
theorem chunk_count_fails_on_whitespace :
    chunk_text [' ', ' ', ' '] 2 1 = some []
      ∧ ceilDiv ((([' ', ' ', ' '] : List Char).length) - 1) (2 - 1) = 2 :=
  ⟨by decide, by decide⟩

/-! ## Retrieval and answer lemmas -/

/-- Equation form: `retrieve_from_pool` unfolded to its sort-and-cap form. -/
theorem retrieve_from_pool_eq {α : Type} [LinearOrderedCommRing α]
    (query_vec : List α) (docs : List Doc) (embeddings : List (List α))
    (top_k : Nat) (filt : Option String) :
    retrieve_from_pool query_vec docs embeddings top_k filt
      = (List.insertionSort byScoreDesc ((docs.zip embeddings).filterMap (fun p =>
          if optTruthy filt && (p.1.report_id != filt) then none
          else some ⟨p.1, vecDot p.2 query_vec⟩))).take top_k := rfl

/-- Claim C6. A pool search returns at most `top_k` results, and the
scores of the result sequence are non-increasing (descending by score),
for every query vector, document list, embedding list, `top_k` and
filter. -/
theorem retrieve_len_le_topk_and_descending {α : Type} [LinearOrderedCommRing α]
    (query_vec : List α) (docs : List Doc) (embeddings : List (List α))
    (top_k : Nat) (filt : Option String) :
    (retrieve_from_pool query_vec docs embeddings top_k filt).length ≤ top_k
      ∧ (retrieve_from_pool query_vec docs embeddings top_k filt).Pairwise
          (fun a b => b.score ≤ a.score) := by
  rw [retrieve_from_pool_eq]
  refine ⟨List.length_take_le _ _, ?_⟩
  exact List.Pairwise.imp (fun h => h)
    (List.Pairwise.sublist (List.take_sublist _ _)
      (List.sorted_insertionSort byScoreDesc _))

/-- Claim C1. Pool isolation: a search filtered to a (non-empty) report
identifier `A` returns only documents whose `report_id` equals `A`; in
particular never a document tagged `B ≠ A` and never an untagged
(base-pool style) document. -/
theorem retrieve_pool_isolation {α : Type} [LinearOrderedCommRing α]
    (query_vec : List α) (docs : List Doc) (embeddings : List (List α))
    (top_k : Nat) (A B : String) (hA : A ≠ "") (hAB : A ≠ B) :
    ∀ r ∈ retrieve_from_pool query_vec docs embeddings top_k (some A),
      r.doc.report_id = some A
        ∧ r.doc.report_id ≠ some B ∧ r.doc.report_id ≠ none := by
  intro r hr
  rw [retrieve_from_pool_eq] at hr
  have hr2 := List.mem_of_mem_take hr
  rw [List.mem_insertionSort] at hr2
  obtain ⟨p, hp, hpe⟩ := List.mem_filterMap.mp hr2
  by_cases hc : (optTruthy (some A) && (p.1.report_id != some A)) = true
  · rw [if_pos hc] at hpe
    exact absurd hpe (by simp)
  · rw [if_neg hc] at hpe
    obtain rfl := (Option.some.inj hpe).symm
    have hA2 : optTruthy (some A) = true := by simp [optTruthy, hA]
    have hid : p.1.report_id = some A := by
      by_cases hne : p.1.report_id = some A
      · exact hne
      · exact absurd (by simp [hA2, hne]) hc
    refine ⟨hid, ?_, ?_⟩
    · rw [hid]
      simp
      exact hAB
    · rw [hid]
      simp

/-- Claim C10. The empty string is falsy in Python, so an empty-string
report-id filter applies no filter at all (the whole scanned pool is
considered), and `answer` called with `report_id = ""` performs no
report-pool search — exactly as if no report id had been given. -/
theorem empty_report_id_treated_as_absent {α : Type} [LinearOrderedCommRing α]
    (query_vec : List α) (docs : List Doc) (embeddings : List (List α))
    (top_k : Nat) (st : EngineState α) :
    retrieve_from_pool query_vec docs embeddings top_k (some "")
        = retrieve_from_pool query_vec docs embeddings top_k none
      ∧ answerMerged st query_vec (some "")
          = retrieve_from_pool query_vec st.base_docs st.base_embeddings 2 none
      ∧ answerMerged st query_vec (some "") = answerMerged st query_vec none := by
  have hfalse : optTruthy (some "") = false := by simp [optTruthy]
  have h1 : ∀ (ds : List Doc) (es : List (List α)) (k : Nat),
      retrieve_from_pool query_vec ds es k (some "")
        = retrieve_from_pool query_vec ds es k none := by
    intro ds es k
    rw [retrieve_from_pool_eq, retrieve_from_pool_eq]
    have hfun : (fun p : Doc × List α =>
        if optTruthy (some "") && (p.1.report_id != some "") then none
        else some (⟨p.1, vecDot p.2 query_vec⟩ : ScoredDoc α))
      = (fun p : Doc × List α =>
        if optTruthy none && (p.1.report_id != none) then none
        else some (⟨p.1, vecDot p.2 query_vec⟩ : ScoredDoc α)) := by
      funext p
      rw [hfalse]
      simp [optTruthy]
    rw [hfun]
  refine ⟨h1 docs embeddings top_k, ?_, ?_⟩
  · unfold answerMerged
    rw [hfalse]
    simp
  · unfold answerMerged
    rw [hfalse]
    simp [optTruthy]

/-- Claim C3. Merge order and caps: when a (truthy) `report_id` is given,
`answer`'s merged sequence is exactly the report-pool search with
`top_k = 4` filtered to that id, followed by the base-pool search with
`top_k = 2` unfiltered — report results occupy the leading positions in
their ranked order and base results the trailing positions in their
ranked order, never re-ranked against each other; with no (truthy)
`report_id`, no report search happens and the merged sequence is just
the base results. -/
theorem answer_merge_order {α : Type} [LinearOrderedCommRing α]
    (st : EngineState α) (q_vec : List α) (rid : Option String) :
    (optTruthy rid = true →
        answerMerged st q_vec rid
            = retrieve_from_pool q_vec st.report_docs st.report_embeddings 4 rid
              ++ retrieve_from_pool q_vec st.base_docs st.base_embeddings 2 none
          ∧ (∀ i, i < (retrieve_from_pool q_vec st.report_docs st.report_embeddings 4 rid).length →
              (answerMerged st q_vec rid)[i]?
                = (retrieve_from_pool q_vec st.report_docs st.report_embeddings 4 rid)[i]?)
          ∧ (∀ j, (answerMerged st q_vec rid)[(retrieve_from_pool q_vec st.report_docs st.report_embeddings 4 rid).length + j]?
              = (retrieve_from_pool q_vec st.base_docs st.base_embeddings 2 none)[j]?))
      ∧ (optTruthy rid = false →
          answerMerged st q_vec rid
            = retrieve_from_pool q_vec st.base_docs st.base_embeddings 2 none) := by
  constructor
  · intro h
    have hm : answerMerged st q_vec rid
        = retrieve_from_pool q_vec st.report_docs st.report_embeddings 4 rid
          ++ retrieve_from_pool q_vec st.base_docs st.base_embeddings 2 none := by
      unfold answerMerged
      rw [h]
      simp
    refine ⟨hm, ?_, ?_⟩
    · intro i hi
      rw [hm, List.getElem?_append]
      rw [if_pos hi]
    · intro j
      rw [hm, List.getElem?_append_right (by omega)]
      congr 1
      omega
  · intro h
    unfold answerMerged
    rw [h]
    simp

/-- Claim C7. Source alignment and format: the source-description list
returned by `answer` has the same length as the merged result list; the
`i`-th source string is built from the `i`-th merged document — in the
report format `"{filename} (report_id={report_id})"` when the document
has a `filename` key and in the base format `"{title} (id={id})"`
otherwise — and the `i`-th context block is built from that same
document. -/
theorem answer_sources_aligned {α : Type} [LinearOrderedCommRing α]
    (embed_query : List Char → List α) (chat : List Message → List Char)
    (st : EngineState α) (question : List Char) (history : List Message)
    (rid : Option String) :
    ((RAGEngine.answer embed_query chat st question history rid).2).length
        = (answerMerged st (embed_query question) rid).length
      ∧ ∀ i, i < (answerMerged st (embed_query question) rid).length →
          ∀ r, (answerMerged st (embed_query question) rid)[i]? = some r →
            ((RAGEngine.answer embed_query chat st question history rid).2)[i]?
                = some (if r.doc.filename.isSome then
                    pyStrOpt r.doc.filename ++ " (report_id="
                      ++ pyStrOpt r.doc.report_id ++ ")"
                  else r.doc.title ++ " (id=" ++ r.doc.id ++ ")")
              ∧ ((answerMerged st (embed_query question) rid).map contextBlock)[i]?
                  = some (contextBlock r) := by
  have h2 : (RAGEngine.answer embed_query chat st question history rid).2
      = (answerMerged st (embed_query question) rid).map sourceLine := rfl
  constructor
  · rw [h2]
    simp
  · intro i hi r hr
    constructor
    · rw [h2, List.getElem?_map, hr]
      simp [sourceLine]
    · rw [List.getElem?_map, hr]
      rfl

/-- Claim C8. Zero-chunk ingestion is inert: whenever chunking the text
yields no chunks (e.g. empty or whitespace-only text), `ingest_report`
returns the freshly drawn report id with the engine state untouched —
for every embedding capability (so the embedding capability is never
needed), uuid supply, prior state and filename; this path is a normal
return, not an error. -/
theorem ingest_zero_chunks_inert {α : Type} [LinearOrderedCommRing α]
    (embed_texts : List (List Char) → List (List α)) (uuid : Nat → String)
    (st : EngineState α) (filename : String) (text : List Char)
    (h : chunkTextDefault text = []) :
    RAGEngine.ingest_report embed_texts uuid st filename text = (uuid 0, st) := by
  unfold RAGEngine.ingest_report
  rw [h]
  simp

/-- The parallel-array invariant: within each pool, the number of
documents equals the number of embedding vectors. -/
def poolsAligned {α : Type} (st : EngineState α) : Prop :=
  st.base_docs.length = st.base_embeddings.length
    ∧ st.report_docs.length = st.report_embeddings.length

/-- Claim C9. The parallel-array invariant holds after engine construction
(given the embedding gateway's contract of one vector per input text,
in order) and is preserved by `ingest_report`, which appends documents
and vectors pairwise to the report pool and leaves the base pool alone;
`answer` is modelled as a pure function of the state (the Python method
writes no attribute), so it preserves both pools by construction. -/
theorem pools_stay_parallel {α : Type} [LinearOrderedCommRing α] :
    (∀ embed_texts : List (List Char) → List (List α),
        (∀ ts, (embed_texts ts).length = ts.length) →
          poolsAligned (RAGEngine.init embed_texts))
      ∧ (∀ (embed_texts : List (List Char) → List (List α)) (uuid : Nat → String)
          (st : EngineState α) (filename : String) (text : List Char),
          poolsAligned st →
            poolsAligned (RAGEngine.ingest_report embed_texts uuid st filename text).2) := by
  constructor
  · intro embed_texts hlen
    unfold RAGEngine.init poolsAligned
    constructor
    · rw [hlen]
      simp
    · rfl
  · intro embed_texts uuid st filename text hst
    unfold RAGEngine.ingest_report
    by_cases h : (chunkTextDefault text).isEmpty
    · simp only [h, if_true]
      exact hst
    · rw [if_neg h]
      unfold poolsAligned at hst ⊢
      dsimp only
      refine ⟨hst.1, ?_⟩
      simp only [List.length_append, List.length_map]
      omega

/-! ## Concrete witness data -/

/-- A report document tagged `"A"`. -/
def docA : Doc := ⟨"id-a", "Report: a.pdf", ['x'], some "A", some "a.pdf"⟩

/-- A report document tagged `"B"`. -/
def docB : Doc := ⟨"id-b", "Report: b.pdf", ['y'], some "B", some "b.pdf"⟩

/-- A base-pool document (no `report_id`, no `filename`). -/
def docBase : Doc := ⟨"doc1", "Base Title", ['z'], none, none⟩

/-- A small engine state over ℤ-valued scores. -/
def stW : EngineState ℤ := ⟨[docBase], [[3]], [docA, docB], [[5], [7]]⟩

/-- An embedding capability returning one (constant) vector per text. -/
def embedW : List (List Char) → List (List ℤ) := fun ts => ts.map (fun _ => [1])

/-- Witness for `retrieve_pool_isolation` at a concrete pool. -/
theorem retrieve_pool_isolation_witness :
    (("A" : String) ≠ "" ∧ ("A" : String) ≠ "B"
        ∧ (⟨docA, (5 : ℤ)⟩ : ScoredDoc ℤ)
            ∈ retrieve_from_pool [(1 : ℤ)] [docA, docB, docBase] [[5], [7], [3]] 3 (some "A"))
      ∧ ((⟨docA, (5 : ℤ)⟩ : ScoredDoc ℤ).doc.report_id = some "A"
          ∧ (⟨docA, (5 : ℤ)⟩ : ScoredDoc ℤ).doc.report_id ≠ some "B"
          ∧ (⟨docA, (5 : ℤ)⟩ : ScoredDoc ℤ).doc.report_id ≠ none) :=
  ⟨⟨by decide, by decide, by decide⟩,
    retrieve_pool_isolation [(1 : ℤ)] [docA, docB, docBase] [[5], [7], [3]] 3 "A" "B"
      (by decide) (by decide) ⟨docA, (5 : ℤ)⟩ (by decide)⟩

/-- Witness for `answer_merge_order` at a concrete state and report id. -/
theorem answer_merge_order_witness :
    (optTruthy (some "A") = true)
      ∧ (answerMerged stW [(1 : ℤ)] (some "A")
            = retrieve_from_pool [(1 : ℤ)] stW.report_docs stW.report_embeddings 4 (some "A")
              ++ retrieve_from_pool [(1 : ℤ)] stW.base_docs stW.base_embeddings 2 none
          ∧ (∀ i, i < (retrieve_from_pool [(1 : ℤ)] stW.report_docs stW.report_embeddings 4 (some "A")).length →
              (answerMerged stW [(1 : ℤ)] (some "A"))[i]?
                = (retrieve_from_pool [(1 : ℤ)] stW.report_docs stW.report_embeddings 4 (some "A"))[i]?)
          ∧ (∀ j, (answerMerged stW [(1 : ℤ)] (some "A"))[(retrieve_from_pool [(1 : ℤ)] stW.report_docs stW.report_embeddings 4 (some "A")).length + j]?
              = (retrieve_from_pool [(1 : ℤ)] stW.base_docs stW.base_embeddings 2 none)[j]?)) :=
  ⟨by decide, (answer_merge_order stW [(1 : ℤ)] (some "A")).1 (by decide)⟩

/-- Witness for `answer_sources_aligned` at a concrete call. -/
theorem answer_sources_aligned_witness :
    ((0 : Nat) < (answerMerged stW ((fun _ => [(1 : ℤ)]) ['q']) (some "A")).length
        ∧ (answerMerged stW ((fun _ => [(1 : ℤ)]) ['q']) (some "A"))[0]?
            = some (⟨docA, (5 : ℤ)⟩ : ScoredDoc ℤ))
      ∧ (((RAGEngine.answer (fun _ => [(1 : ℤ)]) (fun _ => ([] : List Char)) stW ['q'] [] (some "A")).2)[0]?
            = some (if (⟨docA, (5 : ℤ)⟩ : ScoredDoc ℤ).doc.filename.isSome then
                pyStrOpt (⟨docA, (5 : ℤ)⟩ : ScoredDoc ℤ).doc.filename ++ " (report_id="
                  ++ pyStrOpt (⟨docA, (5 : ℤ)⟩ : ScoredDoc ℤ).doc.report_id ++ ")"
              else (⟨docA, (5 : ℤ)⟩ : ScoredDoc ℤ).doc.title ++ " (id="
                  ++ (⟨docA, (5 : ℤ)⟩ : ScoredDoc ℤ).doc.id ++ ")")
          ∧ ((answerMerged stW ((fun _ => [(1 : ℤ)]) ['q']) (some "A")).map contextBlock)[0]?
              = some (contextBlock (⟨docA, (5 : ℤ)⟩ : ScoredDoc ℤ))) :=
  ⟨⟨by decide, by decide⟩,
    (answer_sources_aligned (fun _ => [(1 : ℤ)]) (fun _ => ([] : List Char)) stW ['q'] []
      (some "A")).2 0 (by decide) ⟨docA, (5 : ℤ)⟩ (by decide)⟩

/-- Witness for `ingest_zero_chunks_inert` on the empty text. -/
theorem ingest_zero_chunks_inert_witness :
    (chunkTextDefault ([] : List Char) = [])
      ∧ RAGEngine.ingest_report (fun _ => ([] : List (List ℤ))) (fun _ => "fresh-id")
          stW "r.pdf" [] = ("fresh-id", stW) :=
  ⟨by decide,
    ingest_zero_chunks_inert (fun _ => ([] : List (List ℤ))) (fun _ => "fresh-id")
      stW "r.pdf" [] (by decide)⟩

/-- Witness for `pools_stay_parallel`: a concrete construction followed
by a concrete ingestion. -/
theorem pools_stay_parallel_witness :
    poolsAligned (RAGEngine.init (α := ℤ) embedW)
      ∧ poolsAligned (RAGEngine.ingest_report embedW (fun _ => "u")
          (RAGEngine.init embedW) "r.pdf" ['h', 'i']).2 :=
  ⟨(pools_stay_parallel (α := ℤ)).1 embedW (fun ts => by simp [embedW]),
    (pools_stay_parallel (α := ℤ)).2 embedW (fun _ => "u") (RAGEngine.init embedW)
      "r.pdf" ['h', 'i']
      ((pools_stay_parallel (α := ℤ)).1 embedW (fun ts => by simp [embedW]))⟩
